import Mathlib

/-! Workout builder: ordered block list and its chart projection

A shallow embedding of the two React components of the repository,
`src/App.jsx` and `src/components/WorkoutBuilder.jsx`.

* React state (`useState`) is passed explicitly: a handler that calls
  `setX(prev => e)` becomes a function from the previous list to the next one;
  a handler that returns without calling the setter returns the previous list.
* JavaScript arrays are `List`s; `splice`, `map`, `filter`, `reduce` and the
  spread `[...a, ...b]` are written with the corresponding list operations.
* JavaScript numbers are modelled by `JSNum`: `NaN`, the two infinities and
  exact rationals for the finite values (rounding to binary64 and the sign of
  zero are not modelled).
* `Date.now()` and `parseFloat`, which belong to the host, are parameters.
* The handlers of `WorkoutBuilder` are embedded on sequences of blocks, where a
  call that would leave an entry that is not a block yields `none`, and on
  arrays of arbitrary entries (`handleDragEndRaw`, `handleDistanceChangeRaw`,
  `handleDeleteBlockRaw`), where every call yields an array; runs of events use
  the latter, and the two agree on sequences of blocks.
-/

/-! ## JavaScript numbers -/

/-- A JavaScript number: `NaN`, `-Infinity`, a finite value, `Infinity`. -/
inductive JSNum where
  | nan
  | negInf
  | fin (q : ℚ)
  | posInf
  deriving DecidableEq

namespace JSNum

instance : OfNat JSNum n := ⟨fin n⟩

instance : Inhabited JSNum := ⟨fin 0⟩

/-- The `+` of two numbers. -/
def add : JSNum → JSNum → JSNum
  | nan, _ => nan
  | _, nan => nan
  | posInf, negInf => nan
  | negInf, posInf => nan
  | posInf, _ => posInf
  | _, posInf => posInf
  | negInf, _ => negInf
  | _, negInf => negInf
  | fin a, fin b => fin (a + b)

instance : Add JSNum := ⟨add⟩

/-- The global `isNaN` on a number. -/
def isNaN : JSNum → Bool
  | nan => true
  | _ => false

/-- The `<` of two numbers: false as soon as one side is `NaN`. -/
def lt : JSNum → JSNum → Bool
  | nan, _ => false
  | _, nan => false
  | posInf, _ => false
  | _, negInf => false
  | negInf, _ => true
  | _, posInf => true
  | fin a, fin b => decide (a < b)

/-- Truthiness of a number (`ToBoolean`): `NaN` and `0` are falsy. -/
def truthy : JSNum → Bool
  | nan => false
  | fin q => decide (q ≠ 0)
  | _ => true

/-- The conversion `Number(v)` of a value `v` that already is a number. -/
def Number (v : JSNum) : JSNum := v

/-- White space skipped in front of a numeric string (the common members of
`StrWhiteSpaceChar`). -/
def isStrWhiteSpace (c : Char) : Bool :=
  c == ' ' || c == '\t' || c == '\n' || c == '\r' || c.toNat == 11 || c.toNat == 12 ||
    c.toNat == 160 || c.toNat == 65279

/-- The value of a run of decimal digits. -/
def digitsValue (ds : List Char) : Nat :=
  ds.foldl (fun a c => 10 * a + (c.toNat - 48)) 0

/-- The exponent part that starts a character list, if there is one. -/
def exponentPart : List Char → Int
  | e :: rest =>
    if e == 'e' || e == 'E' then
      match rest with
      | '-' :: ds => if (ds.takeWhile Char.isDigit).isEmpty then 0
                     else - (digitsValue (ds.takeWhile Char.isDigit) : Int)
      | '+' :: ds => (digitsValue (ds.takeWhile Char.isDigit) : Int)
      | ds => (digitsValue (ds.takeWhile Char.isDigit) : Int)
    else 0
  | [] => 0

/-- The unsigned part of `parseFloat`: `Infinity`, or digits with an optional
fraction and exponent; `NaN` when no such prefix exists. -/
def parseUnsigned (cs : List Char) : JSNum :=
  if "Infinity".data.isPrefixOf cs then posInf
  else
    let intDigits := cs.takeWhile Char.isDigit
    let rest := cs.dropWhile Char.isDigit
    let fracDigits := match rest with
      | '.' :: r => r.takeWhile Char.isDigit
      | _ => []
    let tail := match rest with
      | '.' :: r => r.dropWhile Char.isDigit
      | _ => rest
    if intDigits.isEmpty && fracDigits.isEmpty then nan
    else fin ((digitsValue (intDigits ++ fracDigits) : ℚ) / 10 ^ fracDigits.length
              * 10 ^ exponentPart tail)

/-- The negation of a number. -/
def neg : JSNum → JSNum
  | nan => nan
  | negInf => posInf
  | fin q => fin (-q)
  | posInf => negInf

/-- A model of the host function `parseFloat` on strings: leading white space
is skipped, the longest prefix that is a signed decimal literal is read, and
its exact value is returned (the host rounds it to the nearest double). -/
def parseFloat (s : String) : JSNum :=
  match s.data.dropWhile isStrWhiteSpace with
  | '-' :: cs => neg (parseUnsigned cs)
  | '+' :: cs => parseUnsigned cs
  | cs => parseUnsigned cs
end JSNum

/-! ## Drag-and-drop results (`react-beautiful-dnd`) -/

/-- A `DraggableLocation`: the droppable and the index inside it. -/
structure Location where
  droppableId : String
  index : Nat
  deriving DecidableEq

/-- The `DropResult` passed to `onDragEnd`; `destination` is `none` when the
gesture ended outside every droppable. -/
structure DropResult where
  draggableId : String
  source : Location
  destination : Option Location
  deriving DecidableEq

/-! ## `src/App.jsx` -/

namespace App

/-- A block of `App`: template blocks carry `effort` and `duration`; the
`distance` field exists only once `handleDistanceChange` has written it. -/
structure Block where
  effort : JSNum
  duration : JSNum
  distance : Option JSNum := none
  deriving DecidableEq

/-- An entry of `workoutTemplates`. -/
structure Template where
  id : String
  name : String
  description : String
  blocks : List Block
  deriving DecidableEq

/-- The catalog, `App.jsx` lines 7-54. -/
def workoutTemplates : List Template :=
  [ { id := "warmup", name := "Warmup",
      description := "75% effort warmup for 3km",
      blocks := [{ effort := 75, duration := 3 }] },
    { id := "intense-run", name := "Intense Run",
      description := "120% effort for 3km",
      blocks := [{ effort := 120, duration := 3 }] },
    { id := "walk", name := "Walk",
      description := "50% effort for 3km walk",
      blocks := [{ effort := 50, duration := 3 }] },
    { id := "active", name := "Active Workout",
      description := "75% effort for 1.5km & 50% effort for 1.5km",
      blocks := [{ effort := 75, duration := .fin (3 / 2) },
                 { effort := 50, duration := .fin (3 / 2) }] },
    { id := "steady-increase", name := "Steady Increase",
      description := "Progressive effort from 50% to 80% over 4km",
      blocks := [{ effort := 50, duration := 1 }, { effort := 60, duration := 1 },
                 { effort := 70, duration := 1 }, { effort := 80, duration := 1 }] },
    { id := "steady-calm-down", name := "Calm Down",
      description := "Decreasing effort from 80% to 50% over 4km",
      blocks := [{ effort := 80, duration := 1 }, { effort := 70, duration := 1 },
                 { effort := 60, duration := 1 }, { effort := 50, duration := 1 }] } ]

/-- The handler `onDragEnd`, lines 59-66, as a function of the previous state.
`none` stands for the `TypeError` of `workout.blocks` when
`workoutTemplates[source.index]` is `undefined`. -/
def onDragEnd (result : DropResult) (prev : List Block) : Option (List Block) :=
  match result.destination with
  | none => some prev
  | some destination =>
    if destination.droppableId = "chart" ∧ result.source.droppableId = "workoutList" then
      match workoutTemplates[result.source.index]? with
      | none => none
      | some workout => some (prev ++ workout.blocks)
    else some prev

/-- The handler `handleDistanceChange`, lines 68-72. -/
def handleDistanceChange (index : Nat) (newDistance : JSNum)
    (droppedWorkouts : List Block) : List Block :=
  droppedWorkouts.mapIdx fun i block =>
    if i = index then { block with distance := some newDistance } else block

/-- The expression `block.distance || block.duration`: the left operand when
it is truthy, the right one when it is `undefined`, `0` or `NaN`. -/
def distanceOrDuration (block : Block) : JSNum :=
  match block.distance with
  | none => block.duration
  | some d => if d.truthy then d else block.duration

/-- A point of the chart data. -/
structure Point where
  x : JSNum
  y : JSNum
  deriving DecidableEq

/-- The `reduce` of lines 74-78. -/
def cumulativeDistance (droppedWorkouts : List Block) : List Point :=
  droppedWorkouts.foldl
    (fun acc block =>
      let lastDistance := match acc.getLast? with
        | some p => p.x
        | none => 0
      acc ++ [{ x := lastDistance + distanceOrDuration block, y := block.effort }])
    []

/-- The projection in the words of the specification: a running total,
advanced by the amount of each block in turn, with one point per block at the
new total. -/
def runningPoints (total : JSNum) : List Block → List Point
  | [] => []
  | block :: rest =>
    let total := total + distanceOrDuration block
    { x := total, y := block.effort } :: runningPoints total rest

end App

/-! ## `src/components/WorkoutBuilder.jsx` -/

namespace WorkoutBuilder

/-- A block of `WorkoutBuilder`; the entries of `workoutTemplates` have the
same four fields. -/
structure Block where
  id : String
  name : String
  effort : JSNum
  distance : JSNum
  deriving DecidableEq

/-- The catalog, `WorkoutBuilder.jsx` lines 19-25. -/
def workoutTemplates : List Block :=
  [ { id := "warmup", name := "Warm Up", effort := 75, distance := 3 },
    { id := "sprint", name := "Sprint", effort := 95, distance := 1 },
    { id := "recovery", name := "Recovery", effort := 60, distance := 2 },
    { id := "threshold", name := "Threshold", effort := 85, distance := 4 },
    { id := "cooldown", name := "Cool Down", effort := 65, distance := 2 } ]

/-- An entry of the chart data. -/
structure ChartEntry where
  name : String
  effort : JSNum
  start : JSNum
  end_ : JSNum
  distance : JSNum
  deriving DecidableEq

/-- The `map` callback of `getChartData` run over the blocks, with the current
value of the captured variable `distance` as first argument. -/
def getChartDataFrom (distance : JSNum) : List Block → List ChartEntry
  | [] => []
  | block :: rest =>
    let start := distance
    let distance := distance + JSNum.Number block.distance
    { name := block.name, effort := block.effort, start := start, end_ := distance,
      distance := block.distance } :: getChartDataFrom distance rest

/-- The function `getChartData`, lines 31-44: `let distance = 0`, then the map. -/
def getChartData (selectedBlocks : List Block) : List ChartEntry :=
  getChartDataFrom 0 selectedBlocks

/-- The call `blocks.splice(start, 0, item)` for an index `start ≥ 0`: `item`
goes in front of position `start`, at the end when `start` exceeds the length. -/
def spliceInsert {α : Type} (start : Nat) (item : α) (blocks : List α) : List α :=
  blocks.take start ++ item :: blocks.drop start

/-- The template literal of line 56, with `now` the value of `Date.now()`. -/
def instanceId (templateId : String) (now : Nat) : String :=
  templateId ++ "-" ++ toString now

/-- The handler `handleDragEnd`, lines 46-72, as a function of the previous
state; `now` is the value `Date.now()` returns if it is read. `none` stands for
a reorder whose source index is not an index of the list: `removed` is then
`undefined` and the spliced-in entry is not a block. -/
def handleDragEnd (now : Nat) (result : DropResult) (prev : List Block) :
    Option (List Block) :=
  match result.destination with
  | none => some prev
  | some destination =>
    if result.source.droppableId = "templates" ∧ destination.droppableId = "workout" then
      match workoutTemplates.find? (fun t => t.id == result.draggableId) with
      | some template =>
        let newBlock := { template with id := instanceId template.id now }
        some (spliceInsert destination.index newBlock prev)
      | none => some prev
    else if result.source.droppableId = "workout" ∧ destination.droppableId = "workout" then
      match prev[result.source.index]? with
      | some removed =>
        some (spliceInsert destination.index removed (prev.eraseIdx result.source.index))
      | none => none
    else some prev

/-- The handler `handleDistanceChange`, lines 74-83, as a function of the
previous state, with the host function `parseFloat` as a parameter. `none`
stands for a write at an index outside the list, whose result
(`distance` alone, in a new slot) is not a block. -/
def handleDistanceChange (parseFloat : String → JSNum) (index : Nat) (value : String)
    (prev : List Block) : Option (List Block) :=
  let newDistance := parseFloat value
  if newDistance.isNaN || newDistance.lt 0 then some prev
  else
    match prev[index]? with
    | some block => some (prev.set index { block with distance := newDistance })
    | none => none

/-- The handler `handleDeleteBlock`, lines 85-87. -/
def handleDeleteBlock (index : Nat) (prev : List Block) : List Block :=
  (prev.enum.filter fun p => p.1 != index).map Prod.snd

/-- The projection of the chart entries that the scenario of the
specification lists: the right end of the bar and its effort. -/
def ChartEntry.point (e : ChartEntry) : JSNum × JSNum := (e.end_, e.effort)

/-- A user event of `WorkoutBuilder` together with the host values it reads. -/
inductive Op where
  | dragEnd (now : Nat) (result : DropResult)
  | distanceChange (index : Nat) (value : String)
  | deleteBlock (index : Nat)

/-- An entry of the array `selectedBlocks` as the handlers can leave it: a
block, an object with the field `distance` alone (what `blocks[index] = ...`
writes where there was no block), the value `undefined`, or an empty slot. -/
inductive Entry where
  | hole
  | undefined
  | distanceOnly (distance : JSNum)
  | block (b : Block)
  deriving DecidableEq

/-- Whether an entry is an empty slot. -/
def Entry.isHole : Entry → Bool
  | .hole => true
  | _ => false

/-- The `id` of an entry, for the entries that have one. -/
def Entry.id? : Entry → Option String
  | .block b => some b.id
  | _ => none

/-- The object `{ ...entry, distance: newDistance }` of line 80: a block keeps
its other fields, anything else has none to keep. -/
def Entry.withDistance (newDistance : JSNum) : Entry → Entry
  | .block b => .block { b with distance := newDistance }
  | _ => .distanceOnly newDistance

/-- The copy `[...prev]`: an empty slot is read as `undefined`. -/
def spread (prev : List Entry) : List Entry :=
  prev.map fun e =>
    match e with
    | .hole => .undefined
    | e => e

/-- The handler `handleDragEnd`, lines 46-72, on arrays whose entries need not
be blocks. A reorder whose source index is outside the array removes nothing
and splices `undefined` in. -/
def handleDragEndRaw (now : Nat) (result : DropResult) (prev : List Entry) : List Entry :=
  match result.destination with
  | none => prev
  | some destination =>
    if result.source.droppableId = "templates" ∧ destination.droppableId = "workout" then
      match workoutTemplates.find? (fun t => t.id == result.draggableId) with
      | some template =>
        let newBlock := { template with id := instanceId template.id now }
        spliceInsert destination.index (.block newBlock) (spread prev)
      | none => prev
    else if result.source.droppableId = "workout" ∧ destination.droppableId = "workout" then
      let blocks := spread prev
      match blocks[result.source.index]? with
      | some removed =>
        spliceInsert destination.index removed (blocks.eraseIdx result.source.index)
      | none => spliceInsert destination.index .undefined blocks
    else prev

/-- The handler `handleDistanceChange`, lines 74-83, on arrays whose entries
need not be blocks. A write past the end leaves empty slots up to the index
and an object with `distance` alone at the index. -/
def handleDistanceChangeRaw (parseFloat : String → JSNum) (index : Nat) (value : String)
    (prev : List Entry) : List Entry :=
  let newDistance := parseFloat value
  if newDistance.isNaN || newDistance.lt 0 then prev
  else
    let blocks := spread prev
    match blocks[index]? with
    | some entry => blocks.set index (entry.withDistance newDistance)
    | none =>
      blocks ++ List.replicate (index - blocks.length) Entry.hole
        ++ [Entry.distanceOnly newDistance]

/-- The handler `handleDeleteBlock`, lines 85-87, on arrays whose entries need
not be blocks: `filter` does not visit empty slots. -/
def handleDeleteBlockRaw (index : Nat) (prev : List Entry) : List Entry :=
  (prev.enum.filter fun p => !p.2.isHole && p.1 != index).map Prod.snd

/-- One event applied to the state. -/
def step (parseFloat : String → JSNum) : Op → List Entry → List Entry
  | .dragEnd now result, prev => handleDragEndRaw now result prev
  | .distanceChange index value, prev => handleDistanceChangeRaw parseFloat index value prev
  | .deleteBlock index, prev => handleDeleteBlockRaw index prev

/-- The events of a list applied in order, starting from `start`. -/
def runFrom (parseFloat : String → JSNum) : List Op → List Entry → List Entry
  | [], start => start
  | op :: ops, start => runFrom parseFloat ops (step parseFloat op start)

/-- The events of a list applied in order to the initial state `useState([])`. -/
def run (parseFloat : String → JSNum) (ops : List Op) : List Entry :=
  runFrom parseFloat ops []

/-- Whether an event addresses the array the way the rendered list does: a
distance edit at an index of the array, a reorder from an index of the array. -/
def Op.inRange : Op → List Entry → Bool
  | .dragEnd _ result, prev =>
    match result.destination with
    | none => true
    | some destination =>
      if result.source.droppableId = "templates" ∧ destination.droppableId = "workout" then true
      else if result.source.droppableId = "workout" ∧ destination.droppableId = "workout" then
        decide (result.source.index < prev.length)
      else true
  | .distanceChange index _, prev => decide (index < prev.length)
  | .deleteBlock _, _ => true

/-- Whether every event of a run from `start` addresses the array it is applied
to in the sense of `Op.inRange`. -/
def indicesInRange (parseFloat : String → JSNum) : List Op → List Entry → Bool
  | [], _ => true
  | op :: ops, start =>
    op.inRange start && indicesInRange parseFloat ops (step parseFloat op start)

/-- The template and clock value of an event that reaches line 56, that is of
a drop from the catalog onto the sequence whose template is found. -/
def Op.stamp : Op → Option (String × Nat)
  | .dragEnd now result =>
    match result.destination with
    | none => none
    | some destination =>
      if result.source.droppableId = "templates" ∧ destination.droppableId = "workout" then
        (workoutTemplates.find? (fun t => t.id == result.draggableId)).map fun t => (t.id, now)
      else none
  | _ => none

end WorkoutBuilder

/-! ## Evaluation lemmas for `JSNum` -/

namespace JSNum

theorem ofNat_eq_fin (n : Nat) : (OfNat.ofNat n : JSNum) = fin n := rfl

theorem add_eq (a b : JSNum) : a + b = add a b := rfl

theorem fin_add_fin (a b : ℚ) : fin a + fin b = fin (a + b) := rfl

end JSNum

/-! ## `App`: the projection and the two handlers -/

namespace App

/-- The `reduce` step reads the running total back from the last point pushed. -/
theorem foldl_push_eq_runningPoints (bs : List Block) (acc : List Point) :
    bs.foldl
      (fun acc block =>
        let lastDistance := match acc.getLast? with
          | some p => p.x
          | none => 0
        acc ++ [{ x := lastDistance + distanceOrDuration block, y := block.effort }])
      acc
    = acc ++ runningPoints (match acc.getLast? with
                            | some p => p.x
                            | none => 0) bs := by
  induction bs generalizing acc with
  | nil => simp [runningPoints]
  | cons b rest ih =>
    rw [List.foldl_cons, ih]
    simp [runningPoints]

/-- Entry `i` of the running points is the left-to-right total over blocks `0..i`. -/
theorem runningPoints_getElem? (bs : List Block) (total : JSNum) (i : Nat) :
    (runningPoints total bs)[i]? =
      bs[i]?.map fun b =>
        { x := (bs.take (i + 1)).foldl (fun t b => t + distanceOrDuration b) total,
          y := b.effort } := by
  induction bs generalizing total i with
  | nil => simp [runningPoints]
  | cons b rest ih =>
    cases i with
    | zero => simp [runningPoints]
    | succ k => simp [runningPoints, ih]

theorem runningPoints_length (bs : List Block) (total : JSNum) :
    (runningPoints total bs).length = bs.length := by
  induction bs generalizing total with
  | nil => rfl
  | cons b rest ih => simp [runningPoints, ih]

/-- Supporting fact for C1: `cumulativeDistance` has one point per block, in
order; point `i` has the effort of block `i` as `y` and, as `x`, the total from
`0` over blocks `0..i` of `block.distance || block.duration`. -/
theorem cumulativeDistance_running_total (bs : List Block) :
    (cumulativeDistance bs).length = bs.length ∧
    ∀ i b, bs[i]? = some b →
      (cumulativeDistance bs)[i]? =
        some (Point.mk ((bs.take (i + 1)).foldl (fun t b => t + distanceOrDuration b) 0)
               b.effort) := by
  have h : cumulativeDistance bs = runningPoints 0 bs := by
    have := foldl_push_eq_runningPoints bs []
    simpa [cumulativeDistance] using this
  rw [h]
  refine ⟨runningPoints_length bs 0, fun i b hb => ?_⟩
  rw [runningPoints_getElem?, hb]
  rfl

/-- C1, at the failing input: after Warmup is dropped into the empty sequence
the projection is `[{x:3, y:75}]` as the claim says, but once block 0 is edited
to the distance `0` (`Number("0")`) the block has a `distance` field and the
projection still advances by the duration: `x` is `3`, not `0`. -/
theorem cumulativeDistance_zero_distance_uses_duration :
    onDragEnd ⟨"warmup", ⟨"workoutList", 0⟩, some ⟨"chart", 0⟩⟩ []
      = some [{ effort := 75, duration := 3 }] ∧
    cumulativeDistance [{ effort := 75, duration := 3 }] = [{ x := 3, y := 75 }] ∧
    handleDistanceChange 0 0 [{ effort := 75, duration := 3 }]
      = [{ effort := 75, duration := 3, distance := some 0 }] ∧
    cumulativeDistance [{ effort := 75, duration := 3, distance := some 0 }]
      = [{ x := 3, y := 75 }] ∧
    cumulativeDistance [{ effort := 75, duration := 3, distance := some 0 }]
      ≠ [{ x := 0, y := 75 }] := by
  refine ⟨?_, ?_, ?_, ?_, ?_⟩
  · simp [onDragEnd, workoutTemplates]
  · simp [cumulativeDistance, distanceOrDuration, JSNum.ofNat_eq_fin, JSNum.add_eq, JSNum.add]
  · simp [handleDistanceChange]
  · simp [cumulativeDistance, distanceOrDuration, JSNum.ofNat_eq_fin, JSNum.add_eq, JSNum.add,
      JSNum.truthy]
  · simp [cumulativeDistance, distanceOrDuration, JSNum.ofNat_eq_fin, JSNum.add_eq, JSNum.add,
      JSNum.truthy]

/-- C4, at the failing input: `handleDistanceChange` has no guard, so the
negative value `-1` (`Number("-1")`) is stored in block 0 and the sequence is
not the one before the call; `NaN` is stored in the same way. -/
theorem handleDistanceChange_stores_negative :
    handleDistanceChange 0 (.fin (-1)) [{ effort := 75, duration := 3 }]
      = [{ effort := 75, duration := 3, distance := some (.fin (-1)) }] ∧
    handleDistanceChange 0 (.fin (-1)) [{ effort := 75, duration := 3 }]
      ≠ [{ effort := 75, duration := 3 }] ∧
    handleDistanceChange 0 .nan [{ effort := 75, duration := 3 }]
      ≠ [{ effort := 75, duration := 3 }] := by
  refine ⟨?_, ?_, ?_⟩ <;> simp [handleDistanceChange]

/-- C9, counterexample: with Warmup already in the sequence, dropping
Intense Run at destination index 0 leaves Warmup first; the sequence the claim
describes has the new block first. -/
theorem onDragEnd_ignores_destination_index :
    onDragEnd ⟨"intense-run", ⟨"workoutList", 1⟩, some ⟨"chart", 0⟩⟩
        [{ effort := 75, duration := 3 }]
      = some [{ effort := 75, duration := 3 }, { effort := 120, duration := 3 }] ∧
    onDragEnd ⟨"intense-run", ⟨"workoutList", 1⟩, some ⟨"chart", 0⟩⟩
        [{ effort := 75, duration := 3 }]
      ≠ some (List.take 0 [{ effort := 75, duration := 3 }]
              ++ [{ effort := 120, duration := 3 }]
              ++ List.drop 0 [{ effort := 75, duration := 3 }]) := by
  constructor
  · simp [onDragEnd, workoutTemplates]
  · simp [onDragEnd, workoutTemplates, JSNum.ofNat_eq_fin]

/-- C9, amended: a drop of catalog entry `k` from `workoutList` onto `chart`
yields the previous sequence followed by all blocks of template `k` in
template order, whatever the destination index; when the destination index is
the length of the sequence, that result is the insertion at the destination
index. -/
theorem onDragEnd_appends_template (bs : List Block) (k d : Nat) (draggableId : String)
    (t : Template) (hk : workoutTemplates[k]? = some t) :
    onDragEnd ⟨draggableId, ⟨"workoutList", k⟩, some ⟨"chart", d⟩⟩ bs = some (bs ++ t.blocks) ∧
    (d = bs.length →
      onDragEnd ⟨draggableId, ⟨"workoutList", k⟩, some ⟨"chart", d⟩⟩ bs
        = some (bs.take d ++ t.blocks ++ bs.drop d)) := by
  have h : onDragEnd ⟨draggableId, ⟨"workoutList", k⟩, some ⟨"chart", d⟩⟩ bs
      = some (bs ++ t.blocks) := by
    simp [onDragEnd, hk]
  refine ⟨h, ?_⟩
  rintro rfl
  rw [h]
  simp

/-- C9, witness: Active Workout dropped at index 0 onto a sequence holding Warmup. -/
theorem onDragEnd_appends_template_witness :
    workoutTemplates[3]? = some
      { id := "active", name := "Active Workout",
        description := "75% effort for 1.5km & 50% effort for 1.5km",
        blocks := [{ effort := 75, duration := .fin (3 / 2) },
                   { effort := 50, duration := .fin (3 / 2) }] } ∧
    onDragEnd ⟨"active", ⟨"workoutList", 3⟩, some ⟨"chart", 0⟩⟩ [{ effort := 75, duration := 3 }]
      = some [{ effort := 75, duration := 3 }, { effort := 75, duration := .fin (3 / 2) },
              { effort := 50, duration := .fin (3 / 2) }] :=
  ⟨rfl, (onDragEnd_appends_template [{ effort := 75, duration := 3 }] 3 0 "active" _ rfl).1⟩

end App

/-! ## `WorkoutBuilder`: the chart data -/

namespace WorkoutBuilder

/-- Entry `i` of the chart data starts at the left-to-right total of the
distances in front of block `i` and ends one distance further. -/
theorem getChartDataFrom_getElem? (bs : List Block) (d : JSNum) (i : Nat) :
    (getChartDataFrom d bs)[i]? =
      bs[i]?.map fun b =>
        ChartEntry.mk b.name b.effort
          ((bs.take i).foldl (fun t b => t + b.distance) d)
          ((bs.take i).foldl (fun t b => t + b.distance) d + b.distance)
          b.distance := by
  induction bs generalizing d i with
  | nil => simp [getChartDataFrom]
  | cons b rest ih =>
    cases i with
    | zero => simp [getChartDataFrom, JSNum.Number]
    | succ k => simp [getChartDataFrom, JSNum.Number, ih]

theorem getChartDataFrom_length (bs : List Block) (d : JSNum) :
    (getChartDataFrom d bs).length = bs.length := by
  induction bs generalizing d with
  | nil => rfl
  | cons b rest ih => simp [getChartDataFrom, ih]

/-- The total over the first `i + 1` blocks is the total over the first `i`
plus the distance of block `i`. -/
theorem foldl_take_succ_distance (bs : List Block) (d : JSNum) (i : Nat) (b : Block)
    (hb : bs[i]? = some b) :
    (bs.take (i + 1)).foldl (fun t b => t + b.distance) d
      = (bs.take i).foldl (fun t b => t + b.distance) d + b.distance := by
  induction bs generalizing d i with
  | nil => simp at hb
  | cons c rest ih =>
    cases i with
    | zero =>
      simp only [List.getElem?_cons_zero, Option.some.injEq] at hb
      subst hb
      simp
    | succ k =>
      simp only [List.getElem?_cons_succ] at hb
      simpa using ih (d + c.distance) k hb

/-- C2: `getChartData` is a prefix sum over `distance`. For every block
sequence the result has the length of the sequence; entry `i` carries the
effort of block `i`; entry 0 starts at 0; every later entry starts where the
previous one ends; every entry ends at its start plus the distance of its
block; and the last entry of a non-empty sequence ends at the sum, taken left
to right from 0, of all distances. For the blocks (effort 50, distance 3) and
(effort 95, distance 1) the ends are 3 and 4 with efforts 50 and 95. -/
theorem getChartData_prefix_sum :
    (∀ bs : List Block,
      (getChartData bs).length = bs.length ∧
      (∀ i b, bs[i]? = some b → ∃ e, (getChartData bs)[i]? = some e ∧
          e.effort = b.effort ∧
          e.end_ = e.start + b.distance ∧
          (i = 0 → e.start = 0) ∧
          (∀ k, i = k + 1 → ∃ p, (getChartData bs)[k]? = some p ∧ e.start = p.end_)) ∧
      (bs ≠ [] → (getChartData bs).getLast?.map ChartEntry.end_
          = some (bs.foldl (fun t b => t + b.distance) 0))) ∧
    (getChartData [⟨"walk-1", "Walk", 50, 3⟩, ⟨"sprint-2", "Sprint", 95, 1⟩]).map ChartEntry.point
      = [(3, 50), (4, 95)] := by
  refine ⟨fun bs => ⟨getChartDataFrom_length bs 0, ?_, ?_⟩, ?_⟩
  · intro i b hb
    refine ⟨_, by rw [getChartData, getChartDataFrom_getElem?, hb]; rfl, rfl, rfl, ?_, ?_⟩
    · rintro rfl
      rfl
    · rintro k rfl
      have hk : k < bs.length := by
        have := (List.getElem?_eq_some_iff.1 hb).1
        omega
      refine ⟨_, by rw [getChartData, getChartDataFrom_getElem?, List.getElem?_eq_getElem hk]; rfl, ?_⟩
      exact foldl_take_succ_distance bs 0 k _ (List.getElem?_eq_getElem hk)
  · intro hne
    have hpos : 0 < bs.length := List.length_pos.2 hne
    have hlast : bs[bs.length - 1]? = some (bs[bs.length - 1]) :=
      List.getElem?_eq_getElem (by omega)
    rw [List.getLast?_eq_getElem?, getChartData, getChartDataFrom_length,
      getChartDataFrom_getElem?, hlast]
    simp only [Option.map_some', Option.some.injEq]
    rw [← foldl_take_succ_distance bs 0 _ _ hlast]
    have : bs.length - 1 + 1 = bs.length := by omega
    rw [this, List.take_length]
  · simp [getChartData, getChartDataFrom, ChartEntry.point, JSNum.Number, JSNum.ofNat_eq_fin,
      JSNum.add_eq, JSNum.add]
    norm_num

end WorkoutBuilder

/-! ## `WorkoutBuilder`: the handlers -/

namespace WorkoutBuilder

/-- C3: `handleDistanceChange` rejects invalid edits without changing state.
For every parse function, block sequence, index and raw value whose parse is
`NaN` or negative, the sequence after the call is the sequence before it, and
so is the chart data. -/
theorem handleDistanceChange_rejects_invalid (parseFloat : String → JSNum) (bs : List Block)
    (index : Nat) (value : String)
    (h : (parseFloat value).isNaN = true ∨ (parseFloat value).lt 0 = true) :
    handleDistanceChange parseFloat index value bs = some bs ∧
    (handleDistanceChange parseFloat index value bs).map getChartData
      = some (getChartData bs) := by
  have hs : handleDistanceChange parseFloat index value bs = some bs := by
    unfold handleDistanceChange
    rcases h with h | h <;> simp [h]
  exact ⟨hs, by rw [hs]; rfl⟩

/-- C3, witness: the raw values `abc` and `-1` on a one-block sequence. -/
theorem handleDistanceChange_rejects_invalid_witness :
    ((JSNum.parseFloat "abc").isNaN = true ∧
      handleDistanceChange JSNum.parseFloat 0 "abc" [⟨"warmup-1", "Warm Up", 75, 3⟩]
        = some [⟨"warmup-1", "Warm Up", 75, 3⟩]) ∧
    ((JSNum.parseFloat "-1").lt 0 = true ∧
      handleDistanceChange JSNum.parseFloat 0 "-1" [⟨"warmup-1", "Warm Up", 75, 3⟩]
        = some [⟨"warmup-1", "Warm Up", 75, 3⟩]) :=
  have h1 : (JSNum.parseFloat "abc").isNaN = true := by decide
  have h2 : (JSNum.parseFloat "-1").lt 0 = true := by
    simp [JSNum.parseFloat, JSNum.parseUnsigned, JSNum.neg, JSNum.exponentPart,
      JSNum.digitsValue, JSNum.isStrWhiteSpace, List.isPrefixOf, JSNum.lt, JSNum.ofNat_eq_fin]
  ⟨⟨h1, (handleDistanceChange_rejects_invalid JSNum.parseFloat _ 0 "abc" (Or.inl h1)).1⟩,
   ⟨h2, (handleDistanceChange_rejects_invalid JSNum.parseFloat _ 0 "-1" (Or.inr h2)).1⟩⟩

/-- C5: a valid distance edit changes only the targeted block's distance. For
every parse function, block sequence, index `i` of the sequence and raw value
that parses to a number `v` that is neither `NaN` nor negative, the call yields
a sequence of the same length whose block `i` has distance `v` and the id, name
and effort it had, and whose block at every other index is the block of the
previous sequence at that index. -/
theorem handleDistanceChange_sets_only_target (parseFloat : String → JSNum) (bs : List Block)
    (i : Nat) (value : String) (v : JSNum) (b : Block)
    (hb : bs[i]? = some b) (hv : parseFloat value = v)
    (hnan : v.isNaN = false) (hneg : v.lt 0 = false) :
    ∃ bs', handleDistanceChange parseFloat i value bs = some bs' ∧
      bs'.length = bs.length ∧
      bs'[i]? = some ⟨b.id, b.name, b.effort, v⟩ ∧
      ∀ j, j ≠ i → bs'[j]? = bs[j]? := by
  have hi : i < bs.length := (List.getElem?_eq_some_iff.1 hb).1
  refine ⟨bs.set i ⟨b.id, b.name, b.effort, v⟩, ?_, ?_, ?_, ?_⟩
  · simp [handleDistanceChange, hv, hnan, hneg, hb]
  · simp
  · simp [hi]
  · intro j hj
    simp [List.getElem?_set, Ne.symm hj]

/-- C5, witness: block 1 of a two-block sequence edited to `2.5`. -/
theorem handleDistanceChange_sets_only_target_witness :
    ∃ bs', handleDistanceChange JSNum.parseFloat 1 "2.5"
        [⟨"warmup-1", "Warm Up", 75, 3⟩, ⟨"sprint-2", "Sprint", 95, 1⟩] = some bs' ∧
      bs'.length = 2 ∧
      bs'[1]? = some ⟨"sprint-2", "Sprint", 95, .fin (5 / 2)⟩ ∧
      ∀ j, j ≠ 1 → bs'[j]? =
        ([⟨"warmup-1", "Warm Up", 75, 3⟩, ⟨"sprint-2", "Sprint", 95, 1⟩] : List Block)[j]? :=
  handleDistanceChange_sets_only_target JSNum.parseFloat
    [⟨"warmup-1", "Warm Up", 75, 3⟩, ⟨"sprint-2", "Sprint", 95, 1⟩] 1 "2.5" (.fin (5 / 2))
    ⟨"sprint-2", "Sprint", 95, 1⟩ rfl
    (by simp [JSNum.parseFloat, JSNum.parseUnsigned, JSNum.exponentPart,
          JSNum.digitsValue, JSNum.isStrWhiteSpace, List.isPrefixOf]; norm_num)
    rfl (by simp [JSNum.lt, JSNum.ofNat_eq_fin]; norm_num)

end WorkoutBuilder

/-! ## `WorkoutBuilder`: reorder, delete and catalog drop -/

namespace WorkoutBuilder

theorem spliceInsert_length {α : Type} (start : Nat) (item : α) (blocks : List α) :
    (spliceInsert start item blocks).length = blocks.length + 1 := by
  simp only [spliceInsert, List.length_append, List.length_cons, List.length_take,
    List.length_drop]
  omega

/-- Taking the entry at `i` out and splicing it back in at `i` restores the list. -/
theorem spliceInsert_eraseIdx_self {α : Type} (bs : List α) (i : Nat) (hi : i < bs.length) :
    spliceInsert i bs[i] (bs.eraseIdx i) = bs := by
  have h1 : (bs.eraseIdx i).take i = bs.take i := by
    rw [List.eraseIdx_eq_take_drop_succ, List.take_append_of_le_length (by simp; omega),
      List.take_take, Nat.min_self]
  have h2 : (bs.eraseIdx i).drop i = bs.drop (i + 1) := by
    rw [List.eraseIdx_eq_take_drop_succ, List.drop_append_of_le_length (by simp; omega)]
    simp [List.drop_take]
  rw [spliceInsert, h1, h2, List.getElem_cons_drop, List.take_append_drop]

/-- An entry spliced in at an index of the list sits at that index, and taking
it out again restores the list. -/
theorem spliceInsert_getElem?_eraseIdx {α : Type} (l : List α) (j : Nat) (x : α)
    (hj : j ≤ l.length) :
    (spliceInsert j x l)[j]? = some x ∧ (spliceInsert j x l).eraseIdx j = l := by
  have hlen : (l.take j).length = j := by simp [hj]
  constructor
  · rw [spliceInsert, List.getElem?_append_right (by omega), hlen]
    simp
  · rw [spliceInsert, List.eraseIdx_append_of_length_le (by omega), hlen]
    simp

/-- C6: the same-list reorder of `handleDragEnd` (the block at the source index
is removed, then inserted at the destination index of the shortened list) is
undone by the inverse move: for all indices `i`, `j` of a block sequence `bs`,
the move from `i` to `j` yields a sequence, and moving from `j` to `i` in that
sequence yields `bs`. -/
theorem handleDragEnd_reorder_round_trip (now₁ now₂ : Nat) (id₁ id₂ : String)
    (bs : List Block) (i j : Nat) (hi : i < bs.length) (hj : j < bs.length) :
    handleDragEnd now₁ ⟨id₁, ⟨"workout", i⟩, some ⟨"workout", j⟩⟩ bs
      = some (spliceInsert j bs[i] (bs.eraseIdx i)) ∧
    handleDragEnd now₂ ⟨id₂, ⟨"workout", j⟩, some ⟨"workout", i⟩⟩
        (spliceInsert j bs[i] (bs.eraseIdx i))
      = some bs := by
  have hE : j ≤ (bs.eraseIdx i).length := by
    rw [List.length_eraseIdx]
    split <;> omega
  obtain ⟨hget, hera⟩ := spliceInsert_getElem?_eraseIdx (bs.eraseIdx i) j bs[i] hE
  constructor
  · simp [handleDragEnd, List.getElem?_eq_getElem hi]
  · simp only [handleDragEnd, hget, hera]
    simp [spliceInsert_eraseIdx_self bs i hi]

/-- C6, witness: block 0 of three moved to index 2 and back. -/
theorem handleDragEnd_reorder_round_trip_witness :
    handleDragEnd 0 ⟨"warmup-1", ⟨"workout", 0⟩, some ⟨"workout", 2⟩⟩
        [⟨"warmup-1", "Warm Up", 75, 3⟩, ⟨"sprint-2", "Sprint", 95, 1⟩,
         ⟨"cooldown-3", "Cool Down", 65, 2⟩]
      = some [⟨"sprint-2", "Sprint", 95, 1⟩, ⟨"cooldown-3", "Cool Down", 65, 2⟩,
              ⟨"warmup-1", "Warm Up", 75, 3⟩] ∧
    handleDragEnd 0 ⟨"warmup-1", ⟨"workout", 2⟩, some ⟨"workout", 0⟩⟩
        [⟨"sprint-2", "Sprint", 95, 1⟩, ⟨"cooldown-3", "Cool Down", 65, 2⟩,
         ⟨"warmup-1", "Warm Up", 75, 3⟩]
      = some [⟨"warmup-1", "Warm Up", 75, 3⟩, ⟨"sprint-2", "Sprint", 95, 1⟩,
              ⟨"cooldown-3", "Cool Down", 65, 2⟩] :=
  handleDragEnd_reorder_round_trip 0 0 "warmup-1" "warmup-1"
    [⟨"warmup-1", "Warm Up", 75, 3⟩, ⟨"sprint-2", "Sprint", 95, 1⟩,
     ⟨"cooldown-3", "Cool Down", 65, 2⟩] 0 2 (by decide) (by decide)

/-- Filtering an enumeration on an index below its start keeps everything. -/
theorem filter_enumFrom_of_lt {α : Type} (l : List α) (n k : Nat) (hk : k < n) :
    (l.enumFrom n).filter (fun p => p.1 != k) = l.enumFrom n := by
  induction l generalizing n with
  | nil => rfl
  | cons a l ih =>
    have hne : n ≠ k := by omega
    simp [List.enumFrom_cons, hne, ih (n + 1) (by omega)]

/-- The callback `(_, i) => i !== index` of `filter` drops the entry at `index`. -/
theorem filter_enumFrom_eq_eraseIdx {α : Type} (l : List α) (n i : Nat) :
    ((l.enumFrom n).filter (fun p => p.1 != n + i)).map Prod.snd = l.eraseIdx i := by
  induction l generalizing n i with
  | nil => rfl
  | cons a l ih =>
    cases i with
    | zero =>
      simp [List.enumFrom_cons, filter_enumFrom_of_lt l (n + 1) n (by omega)]
    | succ k =>
      have h := ih (n + 1) k
      have e : n + 1 + k = n + (k + 1) := by omega
      rw [e] at h
      simp [List.enumFrom_cons, h]

/-- The filter of `handleDeleteBlock` is the removal of one index. -/
theorem handleDeleteBlock_eq_eraseIdx (i : Nat) (bs : List Block) :
    handleDeleteBlock i bs = bs.eraseIdx i := by
  have := filter_enumFrom_eq_eraseIdx bs 0 i
  simpa [handleDeleteBlock, List.enum] using this

/-- C7: `handleDeleteBlock` removes exactly the block at the given index. For
every block sequence `bs` and index `i` of it, the result has length
`length bs - 1` and is the blocks of `bs` before index `i` followed by the
blocks of `bs` after index `i`. -/
theorem handleDeleteBlock_removes_index (bs : List Block) (i : Nat) (hi : i < bs.length) :
    handleDeleteBlock i bs = bs.take i ++ bs.drop (i + 1) ∧
    (handleDeleteBlock i bs).length = bs.length - 1 := by
  rw [handleDeleteBlock_eq_eraseIdx]
  exact ⟨List.eraseIdx_eq_take_drop_succ bs i, by rw [List.length_eraseIdx, if_pos hi]⟩

/-- C7, witness: block 1 of three deleted. -/
theorem handleDeleteBlock_removes_index_witness :
    handleDeleteBlock 1
        [⟨"warmup-1", "Warm Up", 75, 3⟩, ⟨"sprint-2", "Sprint", 95, 1⟩,
         ⟨"cooldown-3", "Cool Down", 65, 2⟩]
      = [⟨"warmup-1", "Warm Up", 75, 3⟩, ⟨"cooldown-3", "Cool Down", 65, 2⟩] :=
  (handleDeleteBlock_removes_index
    [⟨"warmup-1", "Warm Up", 75, 3⟩, ⟨"sprint-2", "Sprint", 95, 1⟩,
     ⟨"cooldown-3", "Cool Down", 65, 2⟩] 1 (by decide)).1

/-- Looking a catalog template up by its own id finds that template. -/
theorem find?_workoutTemplates_id (t : Block) (ht : t ∈ workoutTemplates) :
    workoutTemplates.find? (fun u => u.id == t.id) = some t := by
  simp only [workoutTemplates, List.mem_cons, List.mem_singleton, List.not_mem_nil,
    or_false] at ht
  rcases ht with rfl | rfl | rfl | rfl | rfl <;> simp [workoutTemplates, List.find?]

/-- C8: a catalog drop splices one clone in at the destination index. For
every block sequence `bs`, catalog template `t` (dragged under its id), clock
value and destination index `d ≤ length bs`, `handleDragEnd` with source
`templates` and destination `workout` at `d` yields the first `d` blocks of
`bs`, one new block with the name, effort and distance of `t`, then the
remaining blocks of `bs` in order; the length grows by one. -/
theorem handleDragEnd_catalog_drop (now : Nat) (bs : List Block) (t : Block)
    (ht : t ∈ workoutTemplates) (sourceIndex d : Nat) (hd : d ≤ bs.length) :
    handleDragEnd now ⟨t.id, ⟨"templates", sourceIndex⟩, some ⟨"workout", d⟩⟩ bs
      = some (bs.take d ++ [Block.mk (instanceId t.id now) t.name t.effort t.distance] ++ bs.drop d) ∧
    (bs.take d ++ [Block.mk (instanceId t.id now) t.name t.effort t.distance] ++ bs.drop d).length
      = bs.length + 1 := by
  constructor
  · simp [handleDragEnd, find?_workoutTemplates_id t ht, spliceInsert]
  · simp only [List.length_append, List.length_take, List.length_drop, List.length_singleton]
    omega

/-- C8, witness: Sprint dropped at index 1 between two blocks. -/
theorem handleDragEnd_catalog_drop_witness :
    handleDragEnd 1700000000000 ⟨"sprint", ⟨"templates", 1⟩, some ⟨"workout", 1⟩⟩
        [⟨"warmup-1", "Warm Up", 75, 3⟩, ⟨"cooldown-3", "Cool Down", 65, 2⟩]
      = some [⟨"warmup-1", "Warm Up", 75, 3⟩, ⟨"sprint-1700000000000", "Sprint", 95, 1⟩,
              ⟨"cooldown-3", "Cool Down", 65, 2⟩] :=
  (handleDragEnd_catalog_drop 1700000000000
    [⟨"warmup-1", "Warm Up", 75, 3⟩, ⟨"cooldown-3", "Cool Down", 65, 2⟩]
    ⟨"sprint", "Sprint", 95, 1⟩ (by simp [workoutTemplates]) 1 1 (by decide)).1

end WorkoutBuilder

/-! ## `WorkoutBuilder`: instance ids -/

namespace WorkoutBuilder

/-- The digits of `Nat.toDigitsCore` go in front of the accumulator. -/
theorem toDigitsCore_eq_append (fuel n : Nat) (ds : List Char) :
    Nat.toDigitsCore 10 fuel n ds = Nat.toDigitsCore 10 fuel n [] ++ ds := by
  induction fuel generalizing n ds with
  | zero => simp [Nat.toDigitsCore]
  | succ f ih =>
    simp only [Nat.toDigitsCore]
    split
    · simp
    · rw [ih (n / 10) (Nat.digitChar (n % 10) :: ds), ih (n / 10) [Nat.digitChar (n % 10)]]
      simp

theorem digitChar_toNat_sub (k : Nat) (hk : k < 10) : (Nat.digitChar k).toNat - 48 = k := by
  have h : ∀ k : Fin 10, (Nat.digitChar k.1).toNat - 48 = k.1 := by decide
  exact h ⟨k, hk⟩

/-- Reading the decimal digits of a number gives the number back. -/
theorem digitsValue_toDigitsCore (fuel n : Nat) (h : n < fuel) :
    JSNum.digitsValue (Nat.toDigitsCore 10 fuel n []) = n := by
  induction fuel generalizing n with
  | zero => omega
  | succ f ih =>
    simp only [Nat.toDigitsCore]
    split
    · rename_i h0
      have hn : n < 10 := by omega
      simp [JSNum.digitsValue, Nat.mod_eq_of_lt hn, digitChar_toNat_sub n hn]
    · rename_i h0
      rw [toDigitsCore_eq_append]
      have hlt : n / 10 < f := by omega
      have := ih (n / 10) hlt
      simp only [JSNum.digitsValue] at this
      simp only [JSNum.digitsValue, List.foldl_append, List.foldl_cons, List.foldl_nil, this,
        digitChar_toNat_sub (n % 10) (Nat.mod_lt _ (by decide))]
      omega

/-- The decimal rendering of a clock value determines the value. -/
theorem toString_nat_injective (m n : Nat) (h : (toString m).data = (toString n).data) :
    m = n := by
  have hm : (toString m).data = Nat.toDigitsCore 10 (m + 1) m [] := rfl
  have hn : (toString n).data = Nat.toDigitsCore 10 (n + 1) n [] := rfl
  rw [hm, hn] at h
  have := congrArg JSNum.digitsValue h
  rwa [digitsValue_toDigitsCore _ _ (Nat.lt_succ_self m),
    digitsValue_toDigitsCore _ _ (Nat.lt_succ_self n)] at this

/-- Two lists that agree after the first occurrence of a separator agree
before it as well, and conversely. -/
theorem append_cons_inj_of_not_mem {α : Type} (c : α) :
    ∀ (l₁ l₂ r₁ r₂ : List α), c ∉ l₁ → c ∉ l₂ → l₁ ++ c :: r₁ = l₂ ++ c :: r₂ →
      l₁ = l₂ ∧ r₁ = r₂
  | [], [], _, _, _, _, h => ⟨rfl, by simpa using h⟩
  | [], b :: l₂, _, _, _, h₂, h => by
    simp only [List.nil_append, List.cons_append, List.cons.injEq] at h
    exact absurd (h.1 ▸ List.mem_cons_self _ _) h₂
  | a :: l₁, [], _, _, h₁, _, h => by
    simp only [List.nil_append, List.cons_append, List.cons.injEq] at h
    exact absurd (h.1 ▸ List.mem_cons_self _ _) h₁
  | a :: l₁, b :: l₂, r₁, r₂, h₁, h₂, h => by
    simp only [List.cons_append, List.cons.injEq] at h
    obtain ⟨e, h'⟩ := append_cons_inj_of_not_mem c l₁ l₂ r₁ r₂
      (fun hc => h₁ (List.mem_cons_of_mem _ hc)) (fun hc => h₂ (List.mem_cons_of_mem _ hc)) h.2
    exact ⟨by rw [h.1, e], h'⟩

theorem instanceId_data (a : String) (n : Nat) :
    (instanceId a n).data = a.data ++ '-' :: (toString n).data := by
  simp [instanceId, String.data_append]

/-- The instance id determines the template id and the clock value, for
template ids without a hyphen. -/
theorem instanceId_injective (a b : String) (m n : Nat) (ha : '-' ∉ a.data)
    (hb : '-' ∉ b.data) (h : instanceId a m = instanceId b n) : a = b ∧ m = n := by
  have hd := congrArg String.data h
  rw [instanceId_data, instanceId_data] at hd
  obtain ⟨h₁, h₂⟩ := append_cons_inj_of_not_mem '-' _ _ _ _ ha hb hd
  exact ⟨String.ext h₁, toString_nat_injective m n h₂⟩

theorem catalog_id_no_hyphen (t : Block) (ht : t ∈ workoutTemplates) : '-' ∉ t.id.data := by
  simp only [workoutTemplates, List.mem_cons, List.mem_singleton, List.not_mem_nil,
    or_false] at ht
  rcases ht with rfl | rfl | rfl | rfl | rfl <;> decide

/-- An instance id is not the id of a string without a hyphen. -/
theorem instanceId_ne_of_no_hyphen (a s : String) (n : Nat) (hs : '-' ∉ s.data) :
    instanceId a n ≠ s := by
  intro h
  apply hs
  rw [← h, instanceId_data]
  simp

end WorkoutBuilder

namespace WorkoutBuilder

theorem spliceInsert_perm {α : Type} (start : Nat) (item : α) (blocks : List α) :
    (spliceInsert start item blocks).Perm (item :: blocks) := by
  unfold spliceInsert
  refine List.perm_middle.trans ?_
  rw [List.take_append_drop]

theorem cons_eraseIdx_perm {α : Type} (l : List α) (i : Nat) (x : α) (h : l[i]? = some x) :
    (x :: l.eraseIdx i).Perm l := by
  obtain ⟨hi, hx⟩ := List.getElem?_eq_some_iff.1 h
  have e : l = l.take i ++ x :: l.drop (i + 1) := by
    rw [← hx, List.getElem_cons_drop, List.take_append_drop]
  rw [List.eraseIdx_eq_take_drop_succ]
  conv_rhs => rw [e]
  exact List.perm_middle.symm

theorem nodup_of_subperm {α : Type} {l₁ l₂ : List α} (h : l₁.Subperm l₂) (hd : l₂.Nodup) :
    l₁.Nodup := by
  obtain ⟨l, hp, hs⟩ := h
  exact hp.nodup_iff.1 (hd.sublist hs)

/-- Reading empty slots as `undefined` changes no id. -/
theorem filterMap_id?_spread (es : List Entry) :
    (spread es).filterMap Entry.id? = es.filterMap Entry.id? := by
  induction es with
  | nil => rfl
  | cons e rest ih =>
    have ih' : List.filterMap Entry.id? (List.map (fun e =>
        match e with
        | .hole => Entry.undefined
        | e => e) rest) = List.filterMap Entry.id? rest := ih
    cases e <;> simp [spread, Entry.id?, ih']

theorem id?_withDistance (v : JSNum) (e : Entry) : (e.withDistance v).id? = e.id? := by
  cases e <;> rfl

/-- Replacing an entry by one with the same id changes no id. -/
theorem filterMap_id?_set (l : List Entry) (i : Nat) (e e' : Entry) (h : l[i]? = some e)
    (he : e'.id? = e.id?) : (l.set i e').filterMap Entry.id? = l.filterMap Entry.id? := by
  induction l generalizing i with
  | nil => simp at h
  | cons a rest ih =>
    cases i with
    | zero =>
      simp only [List.getElem?_cons_zero, Option.some.injEq] at h
      subst h
      simp [List.filterMap_cons, he]
    | succ k =>
      simp only [List.getElem?_cons_succ] at h
      simp [List.filterMap_cons, ih k h]

theorem filterMap_id?_replicate_hole (n : Nat) :
    (List.replicate n Entry.hole).filterMap Entry.id? = [] := by
  induction n with
  | zero => rfl
  | succ k ih => simp [List.replicate_succ, List.filterMap_cons, Entry.id?, ih]

theorem handleDeleteBlockRaw_sublist (index : Nat) (prev : List Entry) :
    (handleDeleteBlockRaw index prev).Sublist prev := by
  have h := (List.filter_sublist (p := fun p : Nat × Entry => !p.2.isHole && p.1 != index)
    prev.enum).map Prod.snd
  rwa [List.enum_map_snd] at h

/-- What one event does to the ids in the array: an event that reaches line 56
adds the id built there, every other event only permutes or removes ids. -/
theorem step_ids (parseFloat : String → JSNum) (op : Op) (es : List Entry) :
    (op.stamp = none ∧
      ((step parseFloat op es).filterMap Entry.id?).Subperm (es.filterMap Entry.id?)) ∨
    (∃ p, op.stamp = some p ∧ (∃ t ∈ workoutTemplates, p.1 = t.id) ∧
      ((step parseFloat op es).filterMap Entry.id?).Perm
        (instanceId p.1 p.2 :: es.filterMap Entry.id?)) := by
  cases op with
  | dragEnd now result =>
    simp only [step, handleDragEndRaw, Op.stamp]
    cases hdest : result.destination with
    | none => exact Or.inl ⟨rfl, List.Subperm.refl _⟩
    | some destination =>
      dsimp only
      by_cases hA : result.source.droppableId = "templates" ∧ destination.droppableId = "workout"
      · rw [if_pos hA, if_pos hA]
        cases hfind : workoutTemplates.find? (fun t => t.id == result.draggableId) with
        | none => exact Or.inl ⟨rfl, List.Subperm.refl _⟩
        | some template =>
          refine Or.inr ⟨(template.id, now), rfl,
            ⟨template, List.mem_of_find?_eq_some hfind, rfl⟩, ?_⟩
          refine ((spliceInsert_perm _ _ _).filterMap Entry.id?).trans ?_
          simp [List.filterMap_cons, Entry.id?, filterMap_id?_spread]
      · rw [if_neg hA, if_neg hA]
        refine Or.inl ⟨rfl, List.Perm.subperm ?_⟩
        by_cases hB : result.source.droppableId = "workout" ∧ destination.droppableId = "workout"
        · rw [if_pos hB]
          cases hget : (spread es)[result.source.index]? with
          | none =>
            refine ((spliceInsert_perm _ _ _).filterMap Entry.id?).trans ?_
            simp [List.filterMap_cons, Entry.id?, filterMap_id?_spread]
          | some removed =>
            refine (((spliceInsert_perm _ _ _).trans
              (cons_eraseIdx_perm _ _ removed hget)).filterMap Entry.id?).trans ?_
            rw [filterMap_id?_spread]
        · rw [if_neg hB]
  | distanceChange index value =>
    simp only [step, handleDistanceChangeRaw]
    refine Or.inl ⟨rfl, List.Perm.subperm ?_⟩
    split
    · exact List.Perm.refl _
    · cases hget : (spread es)[index]? with
      | none =>
        simp [List.filterMap_append, filterMap_id?_replicate_hole, filterMap_id?_spread,
          Entry.id?]
      | some entry =>
        dsimp only
        rw [filterMap_id?_set _ index entry _ hget (id?_withDistance _ entry),
          filterMap_id?_spread]
  | deleteBlock index =>
    exact Or.inl ⟨rfl, ((handleDeleteBlockRaw_sublist index es).filterMap Entry.id?).subperm⟩

/-- The invariant of a run: the ids in the array are pairwise distinct and
each of them was built at line 56 from a template and clock value recorded so
far, as long as no template and clock value is recorded twice. -/
theorem runFrom_ids_invariant (parseFloat : String → JSNum) :
    ∀ (ops : List Op) (es : List Entry) (seen : List (String × Nat)),
      (es.filterMap Entry.id?).Nodup →
      (∀ s ∈ es.filterMap Entry.id?, ∃ p ∈ seen, s = instanceId p.1 p.2) →
      (∀ p ∈ seen, ∃ t ∈ workoutTemplates, p.1 = t.id) →
      (seen ++ ops.filterMap Op.stamp).Nodup →
      ((runFrom parseFloat ops es).filterMap Entry.id?).Nodup ∧
      (∀ s ∈ (runFrom parseFloat ops es).filterMap Entry.id?,
        ∃ p ∈ seen ++ ops.filterMap Op.stamp, s = instanceId p.1 p.2) ∧
      (∀ p ∈ seen ++ ops.filterMap Op.stamp, ∃ t ∈ workoutTemplates, p.1 = t.id)
  | [], es, seen, hnd, hmem, hcat, _ => by
    exact ⟨hnd, by simpa [runFrom] using hmem, by simpa using hcat⟩
  | op :: ops, es, seen, hnd, hmem, hcat, hstamps => by
    simp only [runFrom]
    rcases step_ids parseFloat op es with ⟨hs, hsub⟩ | ⟨p, hs, hp, hperm⟩
    · have e : (op :: ops).filterMap Op.stamp = ops.filterMap Op.stamp := by
        simp [List.filterMap_cons, hs]
      rw [e] at hstamps ⊢
      exact runFrom_ids_invariant parseFloat ops _ seen (nodup_of_subperm hsub hnd)
        (fun s hsm => hmem s (hsub.subset hsm)) hcat hstamps
    · have e : seen ++ (op :: ops).filterMap Op.stamp
          = (seen ++ [p]) ++ ops.filterMap Op.stamp := by
        simp [List.filterMap_cons, hs]
      rw [e] at hstamps ⊢
      have hpseen : p ∉ seen := by
        intro hin
        have := hstamps
        rw [List.append_assoc] at this
        have hdis := (List.nodup_append.1 this).2.2
        exact hdis hin (by simp)
      have hcat' : ∀ q ∈ seen ++ [p], ∃ t ∈ workoutTemplates, q.1 = t.id := by
        intro q hq
        rcases List.mem_append.1 hq with hq | hq
        · exact hcat q hq
        · rw [List.mem_singleton.1 hq]
          exact hp
      have hnew : instanceId p.1 p.2 ∉ es.filterMap Entry.id? := by
        intro hin
        obtain ⟨q, hq, hqe⟩ := hmem _ hin
        obtain ⟨t, ht, hpt⟩ := hp
        obtain ⟨u, hu, hqu⟩ := hcat q hq
        have := instanceId_injective p.1 q.1 p.2 q.2
          (hpt ▸ catalog_id_no_hyphen t ht) (hqu ▸ catalog_id_no_hyphen u hu) hqe
        exact hpseen (Prod.ext this.1 this.2 ▸ hq)
      refine runFrom_ids_invariant parseFloat ops _ (seen ++ [p])
        (hperm.nodup_iff.2 (List.nodup_cons.2 ⟨hnew, hnd⟩)) ?_ hcat' hstamps
      intro s hsm
      rcases List.mem_cons.1 (hperm.subset hsm) with hs' | hs'
      · exact ⟨p, by simp, hs'⟩
      · obtain ⟨q, hq, hqe⟩ := hmem s hs'
        exact ⟨q, List.mem_append_left _ hq, hqe⟩

end WorkoutBuilder

/-! ## `WorkoutBuilder`: runs of events -/

namespace WorkoutBuilder

/-- An array of blocks has no empty slot to read as `undefined`. -/
theorem spread_eq_self_of_blocks (es : List Entry) (h : ∀ e ∈ es, ∃ b, e = Entry.block b) :
    spread es = es := by
  induction es with
  | nil => rfl
  | cons e rest ih =>
    obtain ⟨b, rfl⟩ := h e (List.mem_cons_self _ _)
    have ih' := ih fun e he => h e (List.mem_cons_of_mem _ he)
    simp only [spread] at ih' ⊢
    simp [ih']

theorem spread_map_block (bs : List Block) : spread (bs.map Entry.block) = bs.map Entry.block :=
  spread_eq_self_of_blocks _ (by simp)

theorem map_spliceInsert {α β : Type} (f : α → β) (start : Nat) (item : α) (blocks : List α) :
    (spliceInsert start item blocks).map f = spliceInsert start (f item) (blocks.map f) := by
  simp [spliceInsert, List.map_take, List.map_drop]

theorem map_eraseIdx {α β : Type} (f : α → β) (l : List α) (i : Nat) :
    (l.eraseIdx i).map f = (l.map f).eraseIdx i := by
  simp [List.eraseIdx_eq_take_drop_succ, List.map_take, List.map_drop]

/-- On an array of blocks `handleDragEndRaw` is `handleDragEnd`, wherever the
latter yields a sequence of blocks. -/
theorem handleDragEndRaw_map_block (now : Nat) (result : DropResult) (bs bs' : List Block)
    (h : handleDragEnd now result bs = some bs') :
    handleDragEndRaw now result (bs.map Entry.block) = bs'.map Entry.block := by
  simp only [handleDragEnd] at h
  simp only [handleDragEndRaw, spread_map_block]
  cases hdest : result.destination with
  | none =>
    simp only [hdest, Option.some.injEq] at h
    rw [h]
  | some destination =>
    simp only [hdest] at h
    dsimp only
    by_cases hA : result.source.droppableId = "templates" ∧ destination.droppableId = "workout"
    · rw [if_pos hA] at h ⊢
      cases hfind : workoutTemplates.find? (fun t => t.id == result.draggableId) with
      | none =>
        simp only [hfind, Option.some.injEq] at h
        rw [h]
      | some template =>
        simp only [hfind, Option.some.injEq] at h
        rw [← h, map_spliceInsert]
    · rw [if_neg hA] at h ⊢
      by_cases hB : result.source.droppableId = "workout" ∧ destination.droppableId = "workout"
      · rw [if_pos hB] at h ⊢
        cases hget : bs[result.source.index]? with
        | none => simp [hget] at h
        | some removed =>
          simp only [hget, Option.some.injEq] at h
          rw [← h, map_spliceInsert]
          simp [hget, map_eraseIdx]
      · rw [if_neg hB] at h ⊢
        simp only [Option.some.injEq] at h
        rw [h]

/-- On an array of blocks `handleDistanceChangeRaw` is `handleDistanceChange`,
wherever the latter yields a sequence of blocks. -/
theorem handleDistanceChangeRaw_map_block (parseFloat : String → JSNum) (index : Nat)
    (value : String) (bs bs' : List Block)
    (h : handleDistanceChange parseFloat index value bs = some bs') :
    handleDistanceChangeRaw parseFloat index value (bs.map Entry.block)
      = bs'.map Entry.block := by
  simp only [handleDistanceChange] at h
  simp only [handleDistanceChangeRaw, spread_map_block]
  split at h
  · rename_i hg
    simp only [Option.some.injEq] at h
    rw [if_pos hg, h]
  · rename_i hg
    rw [if_neg hg]
    cases hget : bs[index]? with
    | none => simp [hget] at h
    | some block =>
      simp only [hget, Option.some.injEq] at h
      rw [← h]
      simp [hget, Entry.withDistance, List.map_set]

/-- Entry-level deletion on an array without empty slots drops one index. -/
theorem filter_enumFrom_raw_eq_eraseIdx (l : List Entry) (n i : Nat)
    (h : ∀ e ∈ l, e.isHole = false) :
    ((l.enumFrom n).filter (fun p => !p.2.isHole && p.1 != n + i)).map Prod.snd
      = l.eraseIdx i := by
  have hf : (l.enumFrom n).filter (fun p => !p.2.isHole && p.1 != n + i)
      = (l.enumFrom n).filter (fun p => p.1 != n + i) := by
    apply List.filter_congr
    intro p hp
    have hp2 : p.2 ∈ l := by
      have := List.mem_map_of_mem Prod.snd hp
      rwa [List.enumFrom_map_snd] at this
    simp [h p.2 hp2]
  rw [hf, filter_enumFrom_eq_eraseIdx]

/-- On an array of blocks `handleDeleteBlockRaw` is `handleDeleteBlock`. -/
theorem handleDeleteBlockRaw_map_block (index : Nat) (bs : List Block) :
    handleDeleteBlockRaw index (bs.map Entry.block)
      = (handleDeleteBlock index bs).map Entry.block := by
  have h := filter_enumFrom_raw_eq_eraseIdx (bs.map Entry.block) 0 index
    (by simp [Entry.isHole])
  simp only [Nat.zero_add] at h
  rw [handleDeleteBlock_eq_eraseIdx, handleDeleteBlockRaw, List.enum, h, map_eraseIdx]

/-- An event that addresses an array of blocks in range leaves an array of blocks. -/
theorem step_blocks (parseFloat : String → JSNum) (op : Op) (es : List Entry)
    (h : ∀ e ∈ es, ∃ b, e = Entry.block b) (hr : op.inRange es = true) :
    ∀ e ∈ step parseFloat op es, ∃ b, e = Entry.block b := by
  have hsp := spread_eq_self_of_blocks es h
  cases op with
  | dragEnd now result =>
    simp only [step, handleDragEndRaw, hsp]
    simp only [Op.inRange] at hr
    cases hdest : result.destination with
    | none => exact h
    | some destination =>
      simp only [hdest] at hr
      dsimp only
      by_cases hA : result.source.droppableId = "templates" ∧ destination.droppableId = "workout"
      · rw [if_pos hA]
        cases hfind : workoutTemplates.find? (fun t => t.id == result.draggableId) with
        | none => exact h
        | some template =>
          intro e he
          rcases List.mem_cons.1 ((spliceInsert_perm _ _ _).subset he) with rfl | he'
          · exact ⟨_, rfl⟩
          · exact h e he'
      · rw [if_neg hA] at hr ⊢
        by_cases hB : result.source.droppableId = "workout" ∧ destination.droppableId = "workout"
        · rw [if_pos hB] at hr ⊢
          have hlt : result.source.index < es.length := of_decide_eq_true hr
          rw [List.getElem?_eq_getElem hlt]
          intro e he
          exact h e (((spliceInsert_perm _ _ _).trans
            (cons_eraseIdx_perm es _ _ (List.getElem?_eq_getElem hlt))).subset he)
        · rw [if_neg hB]
          exact h
  | distanceChange index value =>
    simp only [step, handleDistanceChangeRaw, hsp]
    have hlt : index < es.length := by simpa [Op.inRange] using hr
    split
    · exact h
    · rw [List.getElem?_eq_getElem hlt]
      intro e he
      rcases List.mem_or_eq_of_mem_set he with he' | rfl
      · exact h e he'
      · obtain ⟨b, hb⟩ := h es[index] (List.getElem_mem hlt)
        rw [hb]
        exact ⟨_, rfl⟩
  | deleteBlock index =>
    intro e he
    exact h e ((handleDeleteBlockRaw_sublist index es).subset he)

theorem runFrom_blocks (parseFloat : String → JSNum) :
    ∀ (ops : List Op) (es : List Entry), (∀ e ∈ es, ∃ b, e = Entry.block b) →
      indicesInRange parseFloat ops es = true →
      ∀ e ∈ runFrom parseFloat ops es, ∃ b, e = Entry.block b
  | [], es, h, _ => by simpa [runFrom] using h
  | op :: ops, es, h, hr => by
    simp only [indicesInRange, Bool.and_eq_true] at hr
    simp only [runFrom]
    exact runFrom_blocks parseFloat ops _ (step_blocks parseFloat op es h hr.1) hr.2

/-- In an array of blocks every entry has an id. -/
theorem map_id?_of_blocks (es : List Entry) (h : ∀ e ∈ es, ∃ b, e = Entry.block b) :
    es.map Entry.id? = (es.filterMap Entry.id?).map some := by
  induction es with
  | nil => rfl
  | cons e rest ih =>
    obtain ⟨b, rfl⟩ := h e (List.mem_cons_self _ _)
    simp [List.filterMap_cons, Entry.id?, ih fun e he => h e (List.mem_cons_of_mem _ he)]

end WorkoutBuilder

/-! ## `WorkoutBuilder`: uniqueness of instance ids -/

namespace WorkoutBuilder

/-- C10, counterexample: two drops of Warm Up that read the same clock value
give two blocks with the same instance id; and two distance edits past the
end of the empty sequence give two entries without any id. In both runs the
ids of the entries are not pairwise distinct. -/
theorem run_same_clock_same_id :
    (run JSNum.parseFloat
        [.dragEnd 5 ⟨"warmup", ⟨"templates", 0⟩, some ⟨"workout", 0⟩⟩,
         .dragEnd 5 ⟨"warmup", ⟨"templates", 0⟩, some ⟨"workout", 0⟩⟩]
      = [.block ⟨"warmup-5", "Warm Up", 75, 3⟩, .block ⟨"warmup-5", "Warm Up", 75, 3⟩] ∧
     ¬ ((run JSNum.parseFloat
        [.dragEnd 5 ⟨"warmup", ⟨"templates", 0⟩, some ⟨"workout", 0⟩⟩,
         .dragEnd 5 ⟨"warmup", ⟨"templates", 0⟩, some ⟨"workout", 0⟩⟩]).map Entry.id?).Nodup) ∧
    (run JSNum.parseFloat [.distanceChange 0 "2", .distanceChange 1 "2"]
      = [.distanceOnly 2, .distanceOnly 2] ∧
     ¬ ((run JSNum.parseFloat [.distanceChange 0 "2", .distanceChange 1 "2"]).map
        Entry.id?).Nodup) := by
  have h1 : run JSNum.parseFloat
        [.dragEnd 5 ⟨"warmup", ⟨"templates", 0⟩, some ⟨"workout", 0⟩⟩,
         .dragEnd 5 ⟨"warmup", ⟨"templates", 0⟩, some ⟨"workout", 0⟩⟩]
      = [.block ⟨"warmup-5", "Warm Up", 75, 3⟩, .block ⟨"warmup-5", "Warm Up", 75, 3⟩] := rfl
  have h2 : run JSNum.parseFloat [.distanceChange 0 "2", .distanceChange 1 "2"]
      = [.distanceOnly 2, .distanceOnly 2] := by
    simp [run, runFrom, step, handleDistanceChangeRaw, spread, Entry.withDistance,
      JSNum.parseFloat, JSNum.parseUnsigned, JSNum.exponentPart, JSNum.digitsValue,
      JSNum.isStrWhiteSpace, List.isPrefixOf, JSNum.isNaN, JSNum.lt, JSNum.ofNat_eq_fin]
    norm_num
  refine ⟨⟨h1, ?_⟩, ⟨h2, ?_⟩⟩
  · rw [h1]
    decide
  · rw [h2]
    simp [Entry.id?]

/-- C10, amended: for every list of events (drops, reorders, distance edits,
deletes, with arbitrary clock values and indices) applied from the empty
sequence in which no two catalog inserts of the same template read the same
clock value, the instance ids carried by the entries of the resulting sequence
are pairwise distinct, and each block's id is the one built from the template
and clock value of one of the inserts and differs from the id of that template
and of every catalog template. When moreover every distance edit and every
reorder addresses an index of the sequence it is applied to, every entry of
the result is a block, so that the ids of all entries are pairwise distinct. -/
theorem run_instance_ids_unique (parseFloat : String → JSNum) (ops : List Op)
    (hclock : (ops.filterMap Op.stamp).Nodup) :
    ((run parseFloat ops).filterMap Entry.id?).Nodup ∧
    (∀ b, Entry.block b ∈ run parseFloat ops →
      (∃ p ∈ ops.filterMap Op.stamp, b.id = instanceId p.1 p.2 ∧ b.id ≠ p.1) ∧
      ∀ t ∈ workoutTemplates, b.id ≠ t.id) ∧
    (indicesInRange parseFloat ops [] = true →
      (∀ e ∈ run parseFloat ops, ∃ b, e = Entry.block b) ∧
      ((run parseFloat ops).map Entry.id?).Nodup) := by
  obtain ⟨hnd, hmem, hcat⟩ := runFrom_ids_invariant parseFloat ops [] [] (by simp)
    (by simp) (by simp) (by simpa using hclock)
  simp only [List.nil_append] at hmem hcat
  simp only [run]
  refine ⟨hnd, fun b hb => ?_, fun hr => ?_⟩
  · have hid : b.id ∈ (run parseFloat ops).filterMap Entry.id? :=
      List.mem_filterMap.2 ⟨_, hb, rfl⟩
    obtain ⟨p, hp, hpe⟩ := hmem b.id hid
    obtain ⟨u, hu, hpu⟩ := hcat p hp
    refine ⟨⟨p, hp, hpe, ?_⟩, fun t ht => ?_⟩
    · rw [hpe]
      exact instanceId_ne_of_no_hyphen _ _ _ (hpu ▸ catalog_id_no_hyphen u hu)
    · rw [hpe]
      exact instanceId_ne_of_no_hyphen _ _ _ (catalog_id_no_hyphen t ht)
  · have hall := runFrom_blocks parseFloat ops [] (by simp) hr
    refine ⟨hall, ?_⟩
    rw [map_id?_of_blocks _ hall]
    exact hnd.map (Option.some_injective _)

/-- C10, witness: two drops of Warm Up at clock values 5 and 6, a reorder, an
edit and a delete, all at indices of the sequence. -/
theorem run_instance_ids_unique_witness :
    run JSNum.parseFloat
        [.dragEnd 5 ⟨"warmup", ⟨"templates", 0⟩, some ⟨"workout", 0⟩⟩,
         .dragEnd 6 ⟨"warmup", ⟨"templates", 0⟩, some ⟨"workout", 0⟩⟩,
         .dragEnd 7 ⟨"warmup-6", ⟨"workout", 0⟩, some ⟨"workout", 1⟩⟩,
         .distanceChange 1 "2.5",
         .dragEnd 8 ⟨"sprint", ⟨"templates", 1⟩, some ⟨"workout", 2⟩⟩,
         .deleteBlock 0]
      = [.block ⟨"warmup-6", "Warm Up", 75, .fin (5 / 2)⟩,
         .block ⟨"sprint-8", "Sprint", 95, 1⟩] ∧
    ((run JSNum.parseFloat
        [.dragEnd 5 ⟨"warmup", ⟨"templates", 0⟩, some ⟨"workout", 0⟩⟩,
         .dragEnd 6 ⟨"warmup", ⟨"templates", 0⟩, some ⟨"workout", 0⟩⟩,
         .dragEnd 7 ⟨"warmup-6", ⟨"workout", 0⟩, some ⟨"workout", 1⟩⟩,
         .distanceChange 1 "2.5",
         .dragEnd 8 ⟨"sprint", ⟨"templates", 1⟩, some ⟨"workout", 2⟩⟩,
         .deleteBlock 0]).filterMap Entry.id?).Nodup ∧
    indicesInRange JSNum.parseFloat
        [.dragEnd 5 ⟨"warmup", ⟨"templates", 0⟩, some ⟨"workout", 0⟩⟩,
         .dragEnd 6 ⟨"warmup", ⟨"templates", 0⟩, some ⟨"workout", 0⟩⟩,
         .dragEnd 7 ⟨"warmup-6", ⟨"workout", 0⟩, some ⟨"workout", 1⟩⟩,
         .distanceChange 1 "2.5",
         .dragEnd 8 ⟨"sprint", ⟨"templates", 1⟩, some ⟨"workout", 2⟩⟩,
         .deleteBlock 0] [] = true := by
  refine ⟨?_, (run_instance_ids_unique JSNum.parseFloat
    [.dragEnd 5 ⟨"warmup", ⟨"templates", 0⟩, some ⟨"workout", 0⟩⟩,
     .dragEnd 6 ⟨"warmup", ⟨"templates", 0⟩, some ⟨"workout", 0⟩⟩,
     .dragEnd 7 ⟨"warmup-6", ⟨"workout", 0⟩, some ⟨"workout", 1⟩⟩,
     .distanceChange 1 "2.5",
     .dragEnd 8 ⟨"sprint", ⟨"templates", 1⟩, some ⟨"workout", 2⟩⟩,
     .deleteBlock 0] (by decide)).1, ?_⟩
  on_goal 2 =>
    simp [indicesInRange, Op.inRange, step, handleDragEndRaw, handleDistanceChangeRaw,
      workoutTemplates, spliceInsert, spread]
  simp [run, runFrom, step, handleDragEndRaw, handleDistanceChangeRaw, handleDeleteBlockRaw,
    workoutTemplates, spliceInsert, instanceId, spread, Entry.withDistance, Entry.isHole,
    List.enum,
    List.enumFrom, JSNum.parseFloat, JSNum.parseUnsigned, JSNum.exponentPart,
    JSNum.digitsValue, JSNum.isStrWhiteSpace, List.isPrefixOf, JSNum.isNaN, JSNum.lt,
    JSNum.ofNat_eq_fin]
  norm_num
  exact ⟨rfl, rfl⟩

end WorkoutBuilder
